import Mathlib

/-!
Shallow embedding of the GoCore post access layer (package `handlers`,
`src/handlers/post.go`, together with the cache package and
`src/utils/response.go`), and proofs about the behaviour of its five
operations: list (GET /posts), create (POST /posts), get one, delete and
edit (GET/DELETE/PUT /posts/:id).

The Mongo collection is modelled as a list of posts (the collection keeps a
unique index on `id`; reads sort explicitly, so list order is otherwise
irrelevant).  The Redis cache is modelled as an association list for the
`post:<id>` keys plus an optional value for the single `all_posts` key; the
`enabled` flag models whether `redisClient` is nil (the degraded,
cache-disabled mode).  Store calls that can fail in Go are given a Boolean
failure input: `true` means the call returns an error, `false` means it
returns its real result.
-/

namespace GoCore

/-- The post record (`models.Post` and `cache.Post`: `id`, `body`). -/
structure Post where
  id : Int
  body : String
deriving DecidableEq, Repr

/-- State of the Redis cache: item entries keyed by post id (the
`post:<id>` keys), the optional `all_posts` entry, and whether the client is
connected (`redisClient != nil`). -/
structure CacheState where
  enabled : Bool
  items : List (Int × Post)
  allPosts : Option (List Post)
deriving DecidableEq, Repr

/-- Lookup of a key in the item-entry association list (Redis GET). -/
def cacheLookup : List (Int × Post) → Int → Option Post
  | [], _ => none
  | e :: es, id => if e.1 = id then some e.2 else cacheLookup es id

/-- Removal of a key from the item-entry association list (Redis DEL). -/
def removeKey : List (Int × Post) → Int → List (Int × Post)
  | [], _ => []
  | e :: es, id => if e.1 = id then removeKey es id else e :: removeKey es id

/-- `cache.GetCachedPost`: nil client means a miss, otherwise the entry. -/
def getCachedPost (c : CacheState) (id : Int) : Option Post :=
  if c.enabled then cacheLookup c.items id else none

/-- `cache.CachePost`: Redis SET of the `post:<id>` key (overwrites). -/
def cachePost (c : CacheState) (p : Post) : CacheState :=
  if c.enabled then { c with items := (p.id, p) :: removeKey c.items p.id } else c

/-- `cache.InvalidatePostCache`: one DEL of both the item key and the
`all_posts` key. -/
def invalidatePostCache (c : CacheState) (id : Int) : CacheState :=
  if c.enabled then { c with items := removeKey c.items id, allPosts := none } else c

/-- `cache.CacheAllPosts`: SET of the `all_posts` key. -/
def cacheAllPosts (c : CacheState) (ps : List Post) : CacheState :=
  if c.enabled then { c with allPosts := some ps } else c

/-- `cache.GetCachedAllPosts`. -/
def getCachedAllPosts (c : CacheState) : Option (List Post) :=
  if c.enabled then c.allPosts else none

/-- Maximum of a list of ids, `none` on the empty list: semantics of the
aggregation pipeline sort-by-id-descending, limit 1, project id. -/
def maxIds : List Int → Option Int
  | [] => none
  | i :: is =>
    match maxIds is with
    | none => some i
    | some m => some (max i m)

/-- The max-id aggregation of `handlePostPosts` over the collection. -/
def maxIdAgg (store : List Post) : Option Int :=
  maxIds (store.map Post.id)

/-- `FindOne` on filter by id: first matching document. -/
def FindOneById : List Post → Int → Option Post
  | [], _ => none
  | p :: ps, id => if p.id = id then some p else FindOneById ps id

/-- `DeleteOne` on filter by id: remaining collection and `DeletedCount`. -/
def deleteOne : List Post → Int → List Post × Nat
  | [], _ => ([], 0)
  | p :: ps, id =>
    if p.id = id then (ps, 1)
    else
      let r := deleteOne ps id
      (p :: r.1, r.2)

/-- A BSON value of a field in the decoded update map. -/
inductive BVal
  | int (n : Int)
  | str (s : String)
  | other
deriving DecidableEq, Repr

/-- One field of a Mongo `$set` applied to a post document; documents carry
only the schema fields `id` and `body`, all other fields are outside the
decoded model. -/
def setField (p : Post) (fv : String × BVal) : Post :=
  match fv with
  | ("id", .int n) => { p with id := n }
  | ("body", .str b) => { p with body := b }
  | _ => p

/-- A whole `$set` update map applied to a document. -/
def applySet (updates : List (String × BVal)) (p : Post) : Post :=
  updates.foldl setField p

/-- `UpdateOne` on filter by id: new collection and `MatchedCount`. -/
def updateOne : List Post → Int → List (String × BVal) → List Post × Nat
  | [], _, _ => ([], 0)
  | p :: ps, id, us =>
    if p.id = id then (applySet us p :: ps, 1)
    else
      let r := updateOne ps id us
      (p :: r.1, r.2)

/-- Insertion step of sorting by ascending id. -/
def insertById (p : Post) : List Post → List Post
  | [] => [p]
  | q :: qs => if p.id ≤ q.id then p :: q :: qs else q :: insertById p qs

/-- The collection sorted by ascending id: semantics of
`SetSort(bson.D filter on id ascending)` in the Find options. -/
def sortById : List Post → List Post
  | [] => []
  | p :: ps => insertById p (sortById ps)

/-- `Find` with sort ascending by id, `SetSkip(offset)` and
`SetLimit(limit)`. -/
def storeFind (store : List Post) (limit offset : Int) : List Post :=
  ((sortById store).drop offset.toNat).take limit.toNat

/-- One digit of `strconv.Atoi`. -/
def digitVal (c : Char) : Option Nat :=
  if c.isDigit then some (c.toNat - 48) else none

/-- Digit run of `strconv.Atoi`; fails on a non-digit or an empty run at
the top call. -/
def parseDigits : List Char → Nat → Option Nat
  | [], acc => some acc
  | c :: cs, acc =>
    match digitVal c with
    | some d => parseDigits cs (acc * 10 + d)
    | none => none

/-- `strconv.Atoi`: optional sign then a non-empty digit run. -/
def goAtoi (s : String) : Option Int :=
  match s.data with
  | [] => none
  | '+' :: rest => if rest = [] then none else (parseDigits rest 0).map Int.ofNat
  | '-' :: rest => if rest = [] then none else (parseDigits rest 0).map (fun n => -(n : Int))
  | cs => (parseDigits cs 0).map Int.ofNat

/-- `utils.ParsePaginationParams`: limit defaults to 10 and is overwritten
only by a non-empty, parseable, positive value; offset defaults to 0 and is
overwritten only by a non-empty, parseable, non-negative value.  A missing
query parameter reads as the empty string. -/
def ParsePaginationParams (limitStr offsetStr : String) : Int × Int :=
  let limit : Int :=
    if limitStr ≠ "" then
      match goAtoi limitStr with
      | some parsed => if parsed > 0 then parsed else 10
      | none => 10
    else 10
  let offset : Int :=
    if offsetStr ≠ "" then
      match goAtoi offsetStr with
      | some parsed => if parsed ≥ 0 then parsed else 0
      | none => 0
    else 0
  (limit, offset)

/-- What `handleGetPosts` writes: the bare cached listing on an
`all_posts` cache hit, the `PaginatedResponse` object on a miss, or a 500. -/
inductive GetPostsResponse
  | cachedList (posts : List Post)
  | page (posts : List Post) (totalPosts : Int) (limit offset : Int)
  | serverError
deriving DecidableEq, Repr

/-- Whether a `handleGetPosts` response has the `PaginatedResponse` shape
with the four fields posts, totalPosts, limit, offset. -/
def GetPostsResponse.isPage : GetPostsResponse → Bool
  | .page _ _ _ _ => true
  | _ => false

/-- What `handlePostPosts` writes: 201 with the created post, or a 500. -/
inductive CreateResponse
  | created (p : Post)
  | serverError
deriving DecidableEq, Repr

/-- What `handleGetPost` writes: post with its resolution source and cache
header, or a 404.  The wall-clock `responseTimeMs` field is not modelled. -/
inductive GetPostResponse
  | withMeta (post : Post) (source : String) (cacheHit : Bool)
  | notFound
deriving DecidableEq, Repr

/-- What `handleDeletePost` writes: the success message or a 404. -/
inductive DeleteResponse
  | ok
  | notFound
deriving DecidableEq, Repr

/-- What `handleEditPost` writes: 200 with the re-read post, a 404, or a
500 from the re-read. -/
inductive EditResponse
  | ok (p : Post)
  | notFound
  | serverError
deriving DecidableEq, Repr

/-- `handleGetPosts` (GET /posts): `all_posts` cache check first; on a hit
the cached listing is returned as-is; on a miss the pagination parameters
are parsed, the page is fetched (500 if the Find fails), the page is stored
under `all_posts`, and `CountDocuments` fills `totalPosts` with its error
discarded (an errored count reads as 0). -/
def handleGetPosts (c : CacheState) (store : List Post) (limitStr offsetStr : String)
    (findFails countFails : Bool) : GetPostsResponse × CacheState :=
  match getCachedAllPosts c with
  | some cachedPosts => (.cachedList cachedPosts, c)
  | none =>
    let lo := ParsePaginationParams limitStr offsetStr
    if findFails then (.serverError, c)
    else
      let ps := storeFind store lo.1 lo.2
      let c1 := cacheAllPosts c ps
      let count : Int := if countFails then 0 else (store.length : Int)
      (.page ps count lo.1 lo.2, c1)

/-- `handlePostPosts` (POST /posts): under the creation mutex, run the
max-id aggregation (500 on error), set the id of the new post to max+1 (1 on an
empty collection), insert (500 on error, in particular on a unique-index
violation), invalidate the item key of the new id and the `all_posts` key, and
answer 201 with the created post.  The request body contributes only
`body`: the decoded id field is overwritten unconditionally. -/
def handlePostPosts (c : CacheState) (store : List Post) (body : String)
    (aggFails insertFails : Bool) : CreateResponse × CacheState × List Post :=
  if aggFails then (.serverError, c, store)
  else
    let newId : Int :=
      match maxIdAgg store with
      | some m => m + 1
      | none => 1
    if insertFails || store.any (fun q => q.id == newId) then (.serverError, c, store)
    else
      let p : Post := { id := newId, body := body }
      (.created p, invalidatePostCache c newId, store ++ [p])

/-- `handleGetPost` (GET /posts/:id): item cache check first, a hit is
answered tagged source `cache`; on a miss, `FindOne` by id, a missing
document is a 404, a found one is written to the cache and answered tagged
source `database`. -/
def handleGetPost (c : CacheState) (store : List Post) (id : Int) :
    GetPostResponse × CacheState :=
  match getCachedPost c id with
  | some post => (.withMeta { id := post.id, body := post.body } "cache" true, c)
  | none =>
    match FindOneById store id with
    | none => (.notFound, c)
    | some p => (.withMeta p "database" false, cachePost c { id := p.id, body := p.body })

/-- `handleDeletePost` (DELETE /posts/:id): under the mutex, `DeleteOne` by
id; an errored call or a `DeletedCount` of 0 are both answered 404 with
nothing changed; otherwise the cache entries of the id are invalidated and the
success message returned. -/
def handleDeletePost (c : CacheState) (store : List Post) (id : Int) (dbFails : Bool) :
    DeleteResponse × CacheState × List Post :=
  if dbFails then (.notFound, c, store)
  else
    let r := deleteOne store id
    if r.2 = 0 then (.notFound, c, store)
    else (.ok, invalidatePostCache c id, r.1)

/-- `handleEditPost` (PUT /posts/:id): `UpdateOne` with a `$set` of the
decoded field map; an errored call or a `MatchedCount` of 0 are both
answered 404 with nothing changed; on success the cache entries of the id are
invalidated, the document is re-read by id (500 if the re-read finds
nothing) and the re-read document is returned.  No cache repopulation
happens after the re-read. -/
def handleEditPost (c : CacheState) (store : List Post) (id : Int)
    (updates : List (String × BVal)) (updateFails : Bool) :
    EditResponse × CacheState × List Post :=
  if updateFails then (.notFound, c, store)
  else
    let r := updateOne store id updates
    if r.2 = 0 then (.notFound, c, store)
    else
      let c1 := invalidatePostCache c id
      match FindOneById r.1 id with
      | none => (.serverError, c1, r.1)
      | some updatedPost => (.ok updatedPost, c1, r.1)

/-- A run of successive create calls, each through `handlePostPosts` with
its store calls succeeding, threading cache and store. -/
def createMany (c : CacheState) (store : List Post) : List String → CacheState × List Post
  | [] => (c, store)
  | b :: bs =>
    let r := handlePostPosts c store b false false
    createMany r.2.1 r.2.2 bs

/-- The ids 1, 2, ..., n. -/
def seqIds (n : Nat) : List Int :=
  (List.range n).map (fun i : Nat => (i : Int) + 1)


lemma post_eta (p : Post) : ({ id := p.id, body := p.body } : Post) = p := rfl

lemma maxIds_cons (i : Int) (is : List Int) :
    maxIds (i :: is) = some ((maxIds is).elim i (fun m => max i m)) := by
  simp only [maxIds]
  cases maxIds is <;> rfl

lemma maxIds_cons_ne_none (i : Int) (is : List Int) : maxIds (i :: is) ≠ none := by
  rw [maxIds_cons]
  exact fun h => Option.noConfusion h

lemma maxIds_eq_none {is : List Int} : maxIds is = none ↔ is = [] := by
  cases is with
  | nil => simp [maxIds]
  | cons i is => simpa using maxIds_cons_ne_none i is

lemma maxIds_le {is : List Int} {m : Int} (h : maxIds is = some m) : ∀ i ∈ is, i ≤ m := by
  induction is generalizing m with
  | nil => simp [maxIds] at h
  | cons i is ih =>
    intro j hj
    simp only [maxIds] at h
    cases hm : maxIds is with
    | none =>
      rw [hm] at h
      have his : is = [] := maxIds_eq_none.mp hm
      subst his
      simp only [List.mem_singleton] at hj
      rw [hj]
      have h2 : i = m := by simpa using h
      omega
    | some m0 =>
      rw [hm] at h
      have hmax : max i m0 = m := by simpa using h
      rcases List.mem_cons.mp hj with h1 | hj2
      · rw [h1]
        calc i ≤ max i m0 := le_max_left _ _
          _ = m := hmax
      · calc j ≤ m0 := ih hm j hj2
          _ ≤ max i m0 := le_max_right _ _
          _ = m := hmax

lemma maxIds_append (is : List Int) (j : Int) :
    maxIds (is ++ [j]) = some ((maxIds is).elim j (fun m => max m j)) := by
  induction is with
  | nil => simp [maxIds]
  | cons i is ih =>
    rw [List.cons_append, maxIds_cons, ih, maxIds_cons]
    cases maxIds is with
    | none => simp [max_comm]
    | some m => simp [max_assoc]

lemma seqIds_zero : seqIds 0 = [] := rfl

lemma seqIds_succ (n : Nat) : seqIds (n + 1) = seqIds n ++ [(n : Int) + 1] := by
  simp [seqIds, List.range_succ]

lemma seqIds_length (n : Nat) : (seqIds n).length = n := by
  simp only [seqIds, List.length_map, List.length_range]

lemma maxIds_seqIds (n : Nat) :
    maxIds (seqIds n) = if n = 0 then none else some (n : Int) := by
  induction n with
  | zero => simp [seqIds_zero, maxIds]
  | succ k ih =>
    rw [seqIds_succ, maxIds_append, ih]
    by_cases hk : k = 0
    · subst hk
      simp
    · rw [if_neg hk, if_neg (Nat.succ_ne_zero k)]
      simp only [Option.elim]
      rw [max_eq_right (by omega : (k : Int) ≤ (k : Int) + 1)]
      norm_cast

lemma mem_seqIds {k : Int} {n : Nat} : k ∈ seqIds n ↔ 1 ≤ k ∧ k ≤ (n : Int) := by
  simp only [seqIds, List.mem_map, List.mem_range]
  constructor
  · rintro ⟨i, hi, rfl⟩
    constructor
    · omega
    · omega
  · rintro ⟨h1, h2⟩
    refine ⟨(k - 1).toNat, ?_, ?_⟩
    · omega
    · omega

lemma seqIds_nodup (n : Nat) : (seqIds n).Nodup := by
  unfold seqIds
  refine List.Nodup.map ?_ (List.nodup_range n)
  intro a b hab
  have hab2 : (a : Int) + 1 = (b : Int) + 1 := hab
  omega

lemma FindOneById_some_id {s : List Post} {id : Int} {p : Post}
    (h : FindOneById s id = some p) : p.id = id := by
  induction s with
  | nil => simp [FindOneById] at h
  | cons q qs ih =>
    simp only [FindOneById] at h
    split at h
    · cases h
      assumption
    · exact ih h

lemma updateOne_not_found {s : List Post} {id : Int} (us : List (String × BVal))
    (h : FindOneById s id = none) : updateOne s id us = (s, 0) := by
  induction s with
  | nil => simp [updateOne]
  | cons q qs ih =>
    simp only [FindOneById] at h
    split at h
    · simp at h
    · simp only [updateOne]
      rw [if_neg (by assumption), ih h]

lemma deleteOne_not_found {s : List Post} {id : Int}
    (h : FindOneById s id = none) : deleteOne s id = (s, 0) := by
  induction s with
  | nil => simp [deleteOne]
  | cons q qs ih =>
    simp only [FindOneById] at h
    split at h
    · simp at h
    · simp only [deleteOne]
      rw [if_neg (by assumption), ih h]

lemma cacheLookup_removeKey (items : List (Int × Post)) (id : Int) :
    cacheLookup (removeKey items id) id = none := by
  induction items with
  | nil => simp [removeKey, cacheLookup]
  | cons e es ih =>
    simp only [removeKey]
    split
    · exact ih
    · simp only [cacheLookup]
      rw [if_neg (by assumption)]
      exact ih



lemma maxIdAgg_eq_none {s : List Post} : maxIdAgg s = none ↔ s = [] := by
  rw [maxIdAgg, maxIds_eq_none, List.map_eq_nil_iff]

lemma maxIdAgg_le {s : List Post} {m : Int} (h : maxIdAgg s = some m) :
    ∀ q ∈ s, q.id ≤ m := by
  intro q hq
  exact maxIds_le h q.id (List.mem_map_of_mem Post.id hq)

lemma create_eq (c : CacheState) (s : List Post) (b : String) :
    handlePostPosts c s b false false =
      (.created { id := (maxIdAgg s).getD 0 + 1, body := b },
        invalidatePostCache c ((maxIdAgg s).getD 0 + 1),
        s ++ [{ id := (maxIdAgg s).getD 0 + 1, body := b }]) := by
  cases hm : maxIdAgg s with
  | none =>
    have hs : s = [] := maxIdAgg_eq_none.mp hm
    subst hs
    simp [handlePostPosts, maxIdAgg, maxIds]
  | some m =>
    have hany : (s.any (fun q => q.id == m + 1)) = false := by
      rw [List.any_eq_false]
      intro q hq
      have hle := maxIdAgg_le hm q hq
      simp only [beq_iff_eq]
      omega
    simp [handlePostPosts, hm, hany]

lemma id_lt_next (s : List Post) : ∀ q ∈ s, q.id < (maxIdAgg s).getD 0 + 1 := by
  intro q hq
  cases hm : maxIdAgg s with
  | none =>
    have hs : s = [] := maxIdAgg_eq_none.mp hm
    subst hs
    simp at hq
  | some m =>
    have hle := maxIdAgg_le hm q hq
    simp only [Option.getD]
    omega

lemma create_inv {c : CacheState} {s : List Post} {b : String} {p : Post}
    {c1 : CacheState} {s1 : List Post}
    (h : handlePostPosts c s b false false = (.created p, c1, s1)) :
    p = { id := (maxIdAgg s).getD 0 + 1, body := b } ∧
      c1 = invalidatePostCache c p.id ∧ s1 = s ++ [p] := by
  rw [create_eq] at h
  have h1 := congrArg Prod.fst h
  have h2 := congrArg (fun t => t.2.1) h
  have h3 := congrArg (fun t => t.2.2) h
  simp only at h1 h2 h3
  injection h1 with hp
  subst hp
  exact ⟨rfl, h2.symm, h3.symm⟩

lemma createMany_ids (bodies : List String) :
    ∀ (c : CacheState) (s : List Post) (n : Nat), s.map Post.id = seqIds n →
      ((createMany c s bodies).2).map Post.id = seqIds (n + bodies.length) := by
  induction bodies with
  | nil =>
    intro c s n h
    simpa [createMany] using h
  | cons b bs ih =>
    intro c s n h
    have hmax : maxIdAgg s = maxIds (seqIds n) := by rw [maxIdAgg, h]
    have hgetD : (maxIdAgg s).getD 0 + 1 = (n : Int) + 1 := by
      rw [hmax, maxIds_seqIds]
      by_cases hn : n = 0
      · subst hn
        simp
      · rw [if_neg hn]
        simp
    have hlen : n + (b :: bs).length = (n + 1) + bs.length := by
      simp only [List.length_cons]
      omega
    rw [hlen]
    simp only [createMany, create_eq]
    apply ih
    rw [List.map_append, h, hgetD]
    rw [seqIds_succ]
    simp

lemma mem_insertById {x p : Post} {l : List Post} :
    x ∈ insertById p l ↔ x = p ∨ x ∈ l := by
  induction l with
  | nil => simp [insertById]
  | cons q qs ih =>
    simp only [insertById]
    split
    · exact List.mem_cons
    · simp only [List.mem_cons, ih]
      tauto

lemma insertById_pairwise {p : Post} {l : List Post}
    (h : l.Pairwise (fun a b => a.id ≤ b.id)) :
    (insertById p l).Pairwise (fun a b => a.id ≤ b.id) := by
  induction l with
  | nil => simp [insertById]
  | cons q qs ih =>
    rw [List.pairwise_cons] at h
    obtain ⟨hq, hqs⟩ := h
    simp only [insertById]
    split
    · rename_i hle
      rw [List.pairwise_cons]
      constructor
      · intro x hx
        rcases List.mem_cons.mp hx with h1 | hx2
        · rw [h1]
          exact hle
        · exact le_trans hle (hq x hx2)
      · exact List.pairwise_cons.mpr ⟨hq, hqs⟩
    · rename_i hgt
      rw [List.pairwise_cons]
      constructor
      · intro x hx
        rcases mem_insertById.mp hx with h1 | hx2
        · rw [h1]
          omega
        · exact hq x hx2
      · exact ih hqs

lemma sortById_pairwise (s : List Post) :
    (sortById s).Pairwise (fun a b => a.id ≤ b.id) := by
  induction s with
  | nil => simp [sortById]
  | cons p ps ih => exact insertById_pairwise ih

lemma insertById_perm (p : Post) (l : List Post) : (insertById p l).Perm (p :: l) := by
  induction l with
  | nil => simp [insertById]
  | cons q qs ih =>
    simp only [insertById]
    split
    · exact List.Perm.refl _
    · exact (ih.cons q).trans (List.Perm.swap p q qs)

lemma sortById_perm (s : List Post) : (sortById s).Perm s := by
  induction s with
  | nil => simp [sortById]
  | cons p ps ih => exact (insertById_perm p (sortById ps)).trans (ih.cons p)

lemma goAtoi_empty : goAtoi "" = none := rfl

lemma PPP_limit_none {ls : String} (os : String) (h : goAtoi ls = none) :
    (ParsePaginationParams ls os).1 = 10 := by
  by_cases he : ls = ""
  · subst he
    rfl
  · simp [ParsePaginationParams, he, h]

lemma PPP_limit_pos {ls : String} (os : String) {n : Int} (h : goAtoi ls = some n)
    (hn : 0 < n) : (ParsePaginationParams ls os).1 = n := by
  have he : ls ≠ "" := by
    intro he
    subst he
    rw [goAtoi_empty] at h
    exact Option.noConfusion h
  simp [ParsePaginationParams, he, h, hn]

lemma PPP_limit_nonpos {ls : String} (os : String) {n : Int} (h : goAtoi ls = some n)
    (hn : n ≤ 0) : (ParsePaginationParams ls os).1 = 10 := by
  by_cases he : ls = ""
  · subst he
    rfl
  · have hn2 : ¬(n > 0) := by omega
    simp [ParsePaginationParams, he, h, hn2]

lemma PPP_offset_none {os : String} (ls : String) (h : goAtoi os = none) :
    (ParsePaginationParams ls os).2 = 0 := by
  by_cases he : os = ""
  · subst he
    rfl
  · simp [ParsePaginationParams, he, h]

lemma PPP_offset_nonneg {os : String} (ls : String) {n : Int} (h : goAtoi os = some n)
    (hn : 0 ≤ n) : (ParsePaginationParams ls os).2 = n := by
  have he : os ≠ "" := by
    intro he
    subst he
    rw [goAtoi_empty] at h
    exact Option.noConfusion h
  simp [ParsePaginationParams, he, h, hn]

lemma PPP_offset_neg {os : String} (ls : String) {n : Int} (h : goAtoi os = some n)
    (hn : n < 0) : (ParsePaginationParams ls os).2 = 0 := by
  by_cases he : os = ""
  · subst he
    rfl
  · have hn2 : ¬(n ≥ 0) := by omega
    simp [ParsePaginationParams, he, h, hn2]



/-- An empty, connected cache. -/
def cacheOn : CacheState := { enabled := true, items := [], allPosts := none }

/-- A disconnected cache (`redisClient == nil`). -/
def cacheOff : CacheState := { enabled := false, items := [], allPosts := none }

/-- A connected cache holding an `all_posts` entry. -/
def cacheWithAll : CacheState :=
  { enabled := true, items := [], allPosts := some [{ id := 1, body := "a" }] }

/-- A connected cache holding both an item entry for id 1 and the
`all_posts` entry. -/
def cacheFull1 : CacheState :=
  { enabled := true, items := [(1, { id := 1, body := "a" })],
    allPosts := some [{ id := 1, body := "a" }] }

/-- A two-record collection, stored out of id order. -/
def storeTwo : List Post := [{ id := 2, body := "b" }, { id := 1, body := "a" }]

/-- Claim C1, counterexample: starting from an empty store, two creates
assign ids 1 and 2; deleting id 2 succeeds, and the very next create
returns a record with id 2 again — the id of a successfully deleted record
is reassigned by a later create. -/
theorem C1_counterexample :
    let r1 := handlePostPosts cacheOn [] "a" false false
    let r2 := handlePostPosts r1.2.1 r1.2.2 "b" false false
    let r3 := handleDeletePost r2.2.1 r2.2.2 2 false
    let r4 := handlePostPosts r3.2.1 r3.2.2 "c" false false
    r2.1 = CreateResponse.created { id := 2, body := "b" } ∧
      r3.1 = DeleteResponse.ok ∧
      r4.1 = CreateResponse.created { id := 2, body := "c" } := by
  decide

/-- Claim C1, amended: every id assigned by a successful create is strictly
greater than every id present in the store at the moment of creation, and
the ids of two back-to-back creates are strictly increasing; an id freed by
deleting the record holding the maximum id of the store may however be reused by
a later create. -/
theorem C1_amended_ids_strictly_increase :
    ∀ (c : CacheState) (s : List Post) (b : String),
      (∀ p c1 s1, handlePostPosts c s b false false = (.created p, c1, s1) →
        (∀ q ∈ s, q.id < p.id) ∧ s1 = s ++ [p]) ∧
      (∀ p c1 s1 b2 p2 c2 s2,
        handlePostPosts c s b false false = (.created p, c1, s1) →
        handlePostPosts c1 s1 b2 false false = (.created p2, c2, s2) →
        p.id < p2.id) := by
  intro c s b
  constructor
  · intro p c1 s1 h
    obtain ⟨hp, hc, hs⟩ := create_inv h
    refine ⟨?_, hs⟩
    intro q hq
    rw [hp]
    exact id_lt_next s q hq
  · intro p c1 s1 b2 p2 c2 s2 h h2
    obtain ⟨hp, hc, hs⟩ := create_inv h
    obtain ⟨hp2, hc2, hs2⟩ := create_inv h2
    rw [hp2]
    have hmem : p ∈ s1 := by
      rw [hs]
      exact List.mem_append_right s (List.mem_singleton_self p)
    exact id_lt_next s1 p hmem

/-- Claim C2: a create assigns id (current maximum in the store) + 1, id 1
on an empty store, and appends exactly that record; N successive creates
from an empty store yield N records whose ids are pairwise distinct and
form exactly the set 1..N. -/
theorem C2_create_ids_one_to_n :
    ∀ (c : CacheState) (s : List Post) (b : String) (bodies : List String),
      (handlePostPosts c s b false false =
        (.created { id := (maxIdAgg s).getD 0 + 1, body := b },
          invalidatePostCache c ((maxIdAgg s).getD 0 + 1),
          s ++ [{ id := (maxIdAgg s).getD 0 + 1, body := b }])) ∧
      ((createMany c [] bodies).2).length = bodies.length ∧
      (((createMany c [] bodies).2).map Post.id).Nodup ∧
      (∀ k : Int, k ∈ ((createMany c [] bodies).2).map Post.id ↔
        1 ≤ k ∧ k ≤ (bodies.length : Int)) := by
  intro c s b bodies
  have hids := createMany_ids bodies c [] 0 rfl
  rw [Nat.zero_add] at hids
  refine ⟨create_eq c s b, ?_, ?_, ?_⟩
  · have hlen := congrArg List.length hids
    rw [List.length_map, seqIds_length] at hlen
    exact hlen
  · rw [hids]
    exact seqIds_nodup bodies.length
  · intro k
    rw [hids]
    exact mem_seqIds

/-- Claim C3, counterexample: a successful update of the only record
returns the updated record, but afterwards the item cache entry is
absent — the cache is not repopulated with the re-read record. -/
theorem C3_counterexample :
    (handleEditPost cacheFull1 [{ id := 1, body := "a" }] 1
        [("body", BVal.str "X")] false).1 = EditResponse.ok { id := 1, body := "X" } ∧
    getCachedPost (handleEditPost cacheFull1 [{ id := 1, body := "a" }] 1
        [("body", BVal.str "X")] false).2.1 1 = none := by
  decide

/-- Claim C3, amended: on success, update invalidates both the item
cache entry and the aggregate entry, re-reads the record and returns it,
but leaves the item cache entry empty rather than repopulating it; for an
absent id it fails with NotFound and leaves cache and store unchanged. -/
theorem C3_amended_update_cache_effects :
    ∀ (c : CacheState) (s : List Post) (id : Int) (us : List (String × BVal)),
      (FindOneById s id = none → handleEditPost c s id us false = (.notFound, c, s)) ∧
      (∀ u, (updateOne s id us).2 ≠ 0 → FindOneById (updateOne s id us).1 id = some u →
        handleEditPost c s id us false =
          (.ok u, invalidatePostCache c id, (updateOne s id us).1)) ∧
      getCachedPost (invalidatePostCache c id) id = none ∧
      getCachedAllPosts (invalidatePostCache c id) = none := by
  intro c s id us
  refine ⟨?_, ?_, ?_, ?_⟩
  · intro h
    simp [handleEditPost, updateOne_not_found us h]
  · intro u hm hf
    simp [handleEditPost, hm, hf]
  · cases he : c.enabled
    · simp [invalidatePostCache, getCachedPost, he]
    · simp [invalidatePostCache, getCachedPost, he, cacheLookup_removeKey]
  · cases he : c.enabled
    · simp [invalidatePostCache, getCachedAllPosts, he]
    · simp [invalidatePostCache, getCachedAllPosts, he]

/-- Claim C4: when the `all_posts` cache entry is present, the listing
operation returns it in full for every limit, offset, store content and
store failure mode, and changes nothing. -/
theorem C4_aggregate_cache_hit (c : CacheState) (l : List Post)
    (h : getCachedAllPosts c = some l) :
    ∀ (s : List Post) (limitStr offsetStr : String) (findFails countFails : Bool),
      handleGetPosts c s limitStr offsetStr findFails countFails =
        (.cachedList l, c) := by
  intro s ls os ff cf
  simp [handleGetPosts, h]

/-- Witness for claim C4 at a concrete cache, store and parameters. -/
theorem C4_witness :
    handleGetPosts cacheWithAll storeTwo "3" "1" false false =
      (.cachedList [{ id := 1, body := "a" }], cacheWithAll) :=
  C4_aggregate_cache_hit cacheWithAll [{ id := 1, body := "a" }] rfl storeTwo "3" "1"
    false false

/-- Claim C5, counterexample: on a miss with limit 1 over a two-record
store, the `all_posts` entry is populated with the one-record fetched page,
which differs from the full listing of the store. -/
theorem C5_counterexample :
    (handleGetPosts cacheOn storeTwo "1" "" false false).2.allPosts =
      some [{ id := 1, body := "a" }] ∧
    some (sortById storeTwo) ≠ (handleGetPosts cacheOn storeTwo "1" "" false false).2.allPosts := by
  decide

/-- Claim C5, amended: on an aggregate-cache miss the listing queries the
store with limit and offset applied over the id-ascending order, returns
that page with the total record count of the store, and populates the
`all_posts` entry with the fetched page itself (not the full listing);
the id-ascending order is sorted and is a permutation of the store. -/
theorem C5_amended_cache_gets_page (c : CacheState) (s : List Post)
    (limitStr offsetStr : String) (he : c.enabled = true) (hm : c.allPosts = none) :
    handleGetPosts c s limitStr offsetStr false false =
      (.page (storeFind s (ParsePaginationParams limitStr offsetStr).1
            (ParsePaginationParams limitStr offsetStr).2)
          (s.length : Int)
          (ParsePaginationParams limitStr offsetStr).1
          (ParsePaginationParams limitStr offsetStr).2,
        { c with allPosts := some (storeFind s (ParsePaginationParams limitStr offsetStr).1
            (ParsePaginationParams limitStr offsetStr).2) }) ∧
    (sortById s).Pairwise (fun a b => a.id ≤ b.id) ∧ (sortById s).Perm s := by
  have hmiss : getCachedAllPosts c = none := by simp [getCachedAllPosts, he, hm]
  refine ⟨?_, sortById_pairwise s, sortById_perm s⟩
  simp [handleGetPosts, hmiss, cacheAllPosts, he]

/-- Witness for the amended claim C5 at a concrete store and parameters. -/
theorem C5_witness :
    handleGetPosts cacheOn storeTwo "1" "" false false =
      (.page (storeFind storeTwo (ParsePaginationParams "1" "").1
            (ParsePaginationParams "1" "").2)
          (storeTwo.length : Int)
          (ParsePaginationParams "1" "").1 (ParsePaginationParams "1" "").2,
        { cacheOn with allPosts := some (storeFind storeTwo (ParsePaginationParams "1" "").1
            (ParsePaginationParams "1" "").2) }) ∧
    (sortById storeTwo).Pairwise (fun a b => a.id ≤ b.id) ∧
    (sortById storeTwo).Perm storeTwo :=
  C5_amended_cache_gets_page cacheOn storeTwo "1" "" rfl rfl

/-- Claim C6, counterexample: a listing served from the `all_posts` cache
entry is the bare cached array, not an object of the shape posts,
totalPosts, limit, offset. -/
theorem C6_counterexample :
    (handleGetPosts cacheWithAll [] "" "" false false).1.isPage = false ∧
    (handleGetPosts cacheWithAll [] "" "" false false).1 =
      GetPostsResponse.cachedList [{ id := 1, body := "a" }] := by
  decide

/-- Claim C6, amended: a successful listing served from the store has the
four-field paginated shape, while a listing served from the `all_posts`
cache entry is the bare cached listing. -/
theorem C6_amended_response_shape :
    ∀ (c : CacheState) (s : List Post) (ls os : String) (ff cf : Bool),
      (∀ l, getCachedAllPosts c = some l →
        handleGetPosts c s ls os ff cf = (.cachedList l, c)) ∧
      (getCachedAllPosts c = none →
        (handleGetPosts c s ls os false cf).1.isPage = true) := by
  intro c s ls os ff cf
  constructor
  · intro l h
    simp [handleGetPosts, h]
  · intro h
    simp [handleGetPosts, h, GetPostsResponse.isPage]

/-- Claim C7: the single-item read is cache-aside: a cache hit answers the
cached record tagged source cache and changes nothing, independently of the
store; a miss on an absent id is NotFound and changes nothing; a miss on a
present id answers the record tagged source database and writes it to the
cache, so that, with the cache backend connected, an immediately following
read of the same id answers the identical record tagged source cache. -/
theorem C7_get_post_cache_aside :
    ∀ (c : CacheState) (s : List Post) (id : Int),
      (∀ post, getCachedPost c id = some post →
        handleGetPost c s id = (.withMeta post "cache" true, c)) ∧
      (getCachedPost c id = none → FindOneById s id = none →
        handleGetPost c s id = (.notFound, c)) ∧
      (∀ p, getCachedPost c id = none → FindOneById s id = some p →
        handleGetPost c s id = (.withMeta p "database" false, cachePost c p)) ∧
      (c.enabled = true →
        ∀ p c1, handleGetPost c s id = (.withMeta p "database" false, c1) →
          handleGetPost c1 s id = (.withMeta p "cache" true, c1)) := by
  intro c s id
  refine ⟨?_, ?_, ?_, ?_⟩
  · intro post h
    simp [handleGetPost, h, post_eta]
  · intro h1 h2
    simp [handleGetPost, h1, h2]
  · intro p h1 h2
    simp [handleGetPost, h1, h2, post_eta]
  · intro he p c1 h
    rcases hc : getCachedPost c id with _ | post
    · rcases hf : FindOneById s id with _ | q
      · have heq : handleGetPost c s id = (.notFound, c) := by
          simp [handleGetPost, hc, hf]
        rw [heq] at h
        have hfst := congrArg Prod.fst h
        simp only at hfst
        exact GetPostResponse.noConfusion hfst
      · have heq : handleGetPost c s id = (.withMeta q "database" false, cachePost c q) := by
          simp [handleGetPost, hc, hf, post_eta]
        rw [heq] at h
        have hfst := congrArg Prod.fst h
        have hsnd := congrArg Prod.snd h
        simp only at hfst hsnd
        injection hfst with hq hsrc hhit
        subst hq
        subst hsnd
        have hqid : q.id = id := FindOneById_some_id hf
        have hlook : getCachedPost (cachePost c q) id = some q := by
          simp [cachePost, getCachedPost, he, cacheLookup, hqid]
        simp [handleGetPost, hlook, post_eta]
    · have heq : handleGetPost c s id = (.withMeta post "cache" true, c) := by
        simp [handleGetPost, hc, post_eta]
      rw [heq] at h
      have hfst := congrArg Prod.fst h
      simp only at hfst
      injection hfst with h1 h2 h3
      exact absurd h2 (by decide)

/-- Claim C8: pagination parameters clamp to safe defaults: the resolved
limit is always positive (10 unless a positive integer was given) and the
resolved offset always non-negative (0 unless a non-negative integer was
given); missing, malformed, zero or negative limits fall back to 10,
missing, malformed or negative offsets fall back to 0, and no value is
ever rejected; with no parameters the result is (10, 0), and with
limit -1, offset -1 it is also (10, 0). -/
theorem C8_pagination_clamping :
    ∀ (ls os : String),
      (0 < (ParsePaginationParams ls os).1 ∧ 0 ≤ (ParsePaginationParams ls os).2) ∧
      ((ParsePaginationParams ls os).1 = 10 ∨
        goAtoi ls = some (ParsePaginationParams ls os).1) ∧
      ((ParsePaginationParams ls os).2 = 0 ∨
        goAtoi os = some (ParsePaginationParams ls os).2) ∧
      (goAtoi ls = none → (ParsePaginationParams ls os).1 = 10) ∧
      (∀ n, goAtoi ls = some n → 0 < n → (ParsePaginationParams ls os).1 = n) ∧
      (∀ n, goAtoi ls = some n → n ≤ 0 → (ParsePaginationParams ls os).1 = 10) ∧
      (goAtoi os = none → (ParsePaginationParams ls os).2 = 0) ∧
      (∀ n, goAtoi os = some n → 0 ≤ n → (ParsePaginationParams ls os).2 = n) ∧
      (∀ n, goAtoi os = some n → n < 0 → (ParsePaginationParams ls os).2 = 0) ∧
      ParsePaginationParams "" "" = (10, 0) ∧
      ParsePaginationParams "-1" "-1" = (10, 0) := by
  intro ls os
  refine ⟨⟨?_, ?_⟩, ?_, ?_, fun h => PPP_limit_none os h, fun n h hn => PPP_limit_pos os h hn,
    fun n h hn => PPP_limit_nonpos os h hn, fun h => PPP_offset_none ls h,
    fun n h hn => PPP_offset_nonneg ls h hn, fun n h hn => PPP_offset_neg ls h hn,
    by decide, by decide⟩
  · rcases hA : goAtoi ls with _ | n
    · have h1 := PPP_limit_none os hA
      omega
    · by_cases hn : 0 < n
      · have h1 := PPP_limit_pos os hA hn
        omega
      · have h1 := PPP_limit_nonpos os hA (by omega)
        omega
  · rcases hA : goAtoi os with _ | n
    · have h1 := PPP_offset_none ls hA
      omega
    · by_cases hn : 0 ≤ n
      · have h1 := PPP_offset_nonneg ls hA hn
        omega
      · have h1 := PPP_offset_neg ls hA (by omega)
        omega
  · rcases hA : goAtoi ls with _ | n
    · exact Or.inl (PPP_limit_none os hA)
    · by_cases hn : 0 < n
      · exact Or.inr (congrArg some (PPP_limit_pos os hA hn).symm)
      · exact Or.inl (PPP_limit_nonpos os hA (by omega))
  · rcases hA : goAtoi os with _ | n
    · exact Or.inl (PPP_offset_none ls hA)
    · by_cases hn : 0 ≤ n
      · exact Or.inr (congrArg some (PPP_offset_nonneg ls hA hn).symm)
      · exact Or.inl (PPP_offset_neg ls hA (by omega))

/-- Claim C9, counterexample: a failing store call in delete and in update,
on an id that does exist, is answered NotFound — the same answer as for a
nonexistent id, not a distinct server error. -/
theorem C9_counterexample :
    handleDeletePost cacheOn [{ id := 1, body := "a" }] 1 true =
      (DeleteResponse.notFound, cacheOn, [{ id := 1, body := "a" }]) ∧
    handleEditPost cacheOn [{ id := 1, body := "a" }] 1 [] true =
      (EditResponse.notFound, cacheOn, [{ id := 1, body := "a" }]) := by
  decide

/-- Claim C9, amended: the listing and create operations surface store
errors as server errors with no side effects, and NotFound on an absent id
has no side effects; delete and update however conflate a failing store
call with a nonexistent id: both are answered NotFound. -/
theorem C9_amended_error_surfacing :
    ∀ (c : CacheState) (s : List Post) (id : Int) (us : List (String × BVal))
      (b ls os : String) (cf : Bool),
      handleDeletePost c s id true = (.notFound, c, s) ∧
      handleEditPost c s id us true = (.notFound, c, s) ∧
      (FindOneById s id = none →
        handleDeletePost c s id false = (.notFound, c, s) ∧
        handleEditPost c s id us false = (.notFound, c, s)) ∧
      (getCachedAllPosts c = none →
        handleGetPosts c s ls os true cf = (.serverError, c)) ∧
      handlePostPosts c s b true false = (.serverError, c, s) := by
  intro c s id us b ls os cf
  refine ⟨by simp [handleDeletePost], by simp [handleEditPost], ?_, ?_,
    by simp [handlePostPosts]⟩
  · intro h
    constructor
    · simp [handleDeletePost, deleteOne_not_found h]
    · simp [handleEditPost, updateOne_not_found us h]
  · intro h
    simp [handleGetPosts, h]

/-- Claim C10: on the cache-miss listing path a failing total-count query
is silently ignored: the operation still succeeds with the same fetched
page as a successful run, but reports totalPosts 0 instead of the true
record count. -/
theorem C10_count_error_ignored (c : CacheState) (s : List Post) (ls os : String)
    (hm : getCachedAllPosts c = none) :
    ∃ ps,
      (handleGetPosts c s ls os false true).1 =
        .page ps 0 (ParsePaginationParams ls os).1 (ParsePaginationParams ls os).2 ∧
      (handleGetPosts c s ls os false false).1 =
        .page ps (s.length : Int)
          (ParsePaginationParams ls os).1 (ParsePaginationParams ls os).2 := by
  refine ⟨storeFind s (ParsePaginationParams ls os).1 (ParsePaginationParams ls os).2, ?_, ?_⟩
  · simp [handleGetPosts, hm]
  · simp [handleGetPosts, hm]

/-- Witness for claim C10 at a concrete nonempty store, where the failing
count reports 0 though one record exists. -/
theorem C10_witness :
    ∃ ps,
      (handleGetPosts cacheOn [{ id := 1, body := "a" }] "" "" false true).1 =
        .page ps 0 (ParsePaginationParams "" "").1 (ParsePaginationParams "" "").2 ∧
      (handleGetPosts cacheOn [{ id := 1, body := "a" }] "" "" false false).1 =
        .page ps (([{ id := 1, body := "a" }] : List Post).length : Int)
          (ParsePaginationParams "" "").1 (ParsePaginationParams "" "").2 :=
  C10_count_error_ignored cacheOn [{ id := 1, body := "a" }] "" "" rfl


end GoCore
